import Mathlib

/-!
Shallow embedding of the wagering ledger and settlement core of the 2D
betting service (source: the Hono/Deno-KV application, principally the
route handlers in the unnamed source file: the bet-placement handler
POST /api/2d/bet, the administrative top-up handler POST /admin/topup,
the settlement sweep process2DWinnings, and the result listing
getRecentResults).

Modelling conventions:
  * The Deno KV store is a record of lists (users, bets, results) keyed
    the way the source keys them; handlers become pure state
    transformers returning a result code together with the new state.
  * JavaScript numbers holding currency are modelled as Int (the domain
    values are integral currency units).
  * crypto.randomUUID is modelled as a fresh-id counter in the state:
    each new wager takes the next counter value.
  * Date.now() at wager persistence is modelled as a clock function from
    the save counter to readings: the source evaluates Date.now() anew for
    each record inside the save loop (with an awaited kv.set in between),
    so each persisted wager carries the clock reading of its own save.
  * The conditional-write (compare-and-swap) commit of kv.atomic() is
    modelled two ways: the sequential semantics in which a lone writer's
    commit succeeds, with the commit outcome of a racing environment
    supplied explicitly as a list of Booleans consumed one per attempted
    conditional write; and, for the concurrency claim, a small
    interleaving machine over the account register that mirrors the
    handler's read / fresh-get-check / commit structure.
  * String comparison of KV key parts is modelled by code-point
    lexicographic order, computed structurally on String.data.
-/

namespace Game2D

/-- The two daily wagering sessions (source: session enum "Morning" | "Evening"). -/
inductive Session where
  | Morning
  | Evening
  deriving DecidableEq, Repr

/-- Wager status (source: status enum "pending" | "win" | "lose"). -/
inductive BetStatus where
  | pending
  | win
  | lose
  deriving DecidableEq, Repr

/-- Account record (source: interface User; the password hash belongs to the
excluded authentication layer and is not part of the core model). -/
structure User where
  username : String
  balance : Int
  isAdmin : Bool
  createdAt : Nat
  deriving DecidableEq, Repr

/-- Wager record (source: interface TwoDBet). -/
structure TwoDBet where
  id : Nat
  username : String
  number : String
  amount : Int
  date : String
  session : Session
  status : BetStatus
  timestamp : Nat
  deriving DecidableEq, Repr

/-- Published draw result (source: interface TwoDResult). -/
structure TwoDResult where
  date : String
  time : String
  twod : String
  session : Session
  deriving DecidableEq, Repr

/-- The KV store contents relevant to the core, plus the fresh-id counter
modelling crypto.randomUUID. Users are keyed by username, bets by
(date, username, id), results by (date, session). -/
structure KVState where
  users : List User
  bets : List TwoDBet
  results : List TwoDResult
  nextId : Nat
  deriving DecidableEq, Repr

/-- Source: getUser — kv.get(["users", username]). -/
def getUser (s : KVState) (username : String) : Option User :=
  s.users.find? (fun u => u.username == username)

/-- Writing back a user record with a new balance (the .set half of the
handlers' kv.atomic().check(...).set(["users", username], {...user, balance})). -/
def setUserBalance (s : KVState) (username : String) (newBalance : Int) : KVState :=
  { s with
    users := s.users.map (fun u =>
      if u.username == username then { u with balance := newBalance } else u) }

/-- Session resolution from the wall-clock hour (source: bet handler,
hour < 12 → Morning, hour < 16 → Evening, else market closed). -/
def sessionOfHour (hour : Nat) : Option Session :=
  if hour < 12 then some Session.Morning
  else if hour < 16 then some Session.Evening
  else none

/-- The regex tests of the bet handler: exactly k digit characters. -/
def isDigits (n : String) (k : Nat) : Bool :=
  n.length == k && n.data.all Char.isDigit

/-- Digit-reversal of a number string (source: number.split('').reverse().join('')). -/
def reverseStr (n : String) : String :=
  String.mk n.data.reverse

/-- Bet-type expansion (source: the "Bet Type Logic" block of POST /api/2d/bet).
none models the 400 validation responses (bad pattern or unknown bet type). -/
def expand2D (betType : String) (number : String) : Option (List String) :=
  if betType == "double" then
    some ((List.range 10).map (fun i => toString i ++ toString i))
  else if betType == "head" then
    if isDigits number 1 then
      some ((List.range 10).map (fun i => number ++ toString i))
    else none
  else if betType == "tail" then
    if isDigits number 1 then
      some ((List.range 10).map (fun i => toString i ++ number))
    else none
  else if betType == "r" then
    if isDigits number 2 then
      some (if reverseStr number == number then [number] else [number, reverseStr number])
    else none
  else if betType == "direct" then
    if isDigits number 2 then some [number] else none
  else none

/-- The commit outcome of the next attempted conditional write, as supplied
by the racing environment; with no racing writer recorded, a commit
succeeds. -/
def casFirstOk (casOk : List Bool) : Bool :=
  casOk.headD true

/-- Typed outcome of the bet-placement handler (the JSON responses of
POST /api/2d/bet). validationError covers both the bad-pattern and the
unknown-bet-type 400 responses. -/
inductive BetResult where
  | ok (newBalance : Int)
  | unauthorized
  | invalidAmount
  | marketClosed
  | validationError
  | insufficientFunds
  | conflict
  deriving DecidableEq, Repr

/-- One pending wager record per expanded number, ids taken consecutively
from the fresh-id counter (source: the save loop of POST /api/2d/bet).
Each record's timestamp is the clock reading ts at its own save — the
source calls Date.now() separately for every record of the loop. -/
def mkBets (username : String) (amount : Int) (today : String) (session : Session)
    (ts : Nat → Nat) : List String → Nat → List TwoDBet
  | [], _ => []
  | n :: rest, i =>
    { id := i, username := username, number := n, amount := amount, date := today,
      session := session, status := BetStatus.pending, timestamp := ts i } ::
      mkBets username amount today session ts rest (i + 1)

/-- The bet-placement handler POST /api/2d/bet, in source order:
session-user lookup, amount validation, session resolution, bet-type
expansion, total cost, funds check, conditional-write debit, wager
persistence. casOk supplies the outcome of each attempted conditional
write (a lone writer's commit succeeds: headD true); the returned Nat
counts the conditional writes attempted; ts is the clock consulted once
per saved record, indexed by the fresh-id counter of that save. -/
def placeBet (s : KVState) (username betType number : String) (amount : Int)
    (hour : Nat) (today : String) (ts : Nat → Nat) (casOk : List Bool) :
    BetResult × KVState × Nat :=
  match getUser s username with
  | none => (BetResult.unauthorized, s, 0)
  | some user =>
    if amount < 100 then (BetResult.invalidAmount, s, 0)
    else
      match sessionOfHour hour with
      | none => (BetResult.marketClosed, s, 0)
      | some session =>
        match expand2D betType number with
        | none => (BetResult.validationError, s, 0)
        | some numbersToBet =>
          let totalCost : Int := numbersToBet.length * amount
          if user.balance < totalCost then (BetResult.insufficientFunds, s, 0)
          else if casFirstOk casOk = false then (BetResult.conflict, s, 1)
          else
            let s1 := setUserBalance s username (user.balance - totalCost)
            let newBets := mkBets username amount today session ts numbersToBet s.nextId
            (BetResult.ok (user.balance - totalCost),
             { s1 with bets := s1.bets ++ newBets,
                       nextId := s.nextId + numbersToBet.length }, 1)

/-- Typed outcome of the administrative top-up handler POST /admin/topup. -/
inductive TopUpResult where
  | ok (newBalance : Int)
  | invalid
  | conflict
  deriving DecidableEq, Repr

/-- The administrative top-up handler POST /admin/topup (target lookup,
amount validation, conditional-write credit). casOk as in placeBet. -/
def adminTopUp (s : KVState) (target : String) (amount : Int) (casOk : List Bool) :
    TopUpResult × KVState × Nat :=
  match getUser s target with
  | none => (TopUpResult.invalid, s, 0)
  | some u =>
    if amount ≤ 0 then (TopUpResult.invalid, s, 0)
    else if casFirstOk casOk = false then (TopUpResult.conflict, s, 1)
    else (TopUpResult.ok (u.balance + amount),
          setUserBalance s target (u.balance + amount), 1)

/-- Rewriting one wager's status in place (the .set(entry.key, {...bet, status})
half of the sweep's per-wager atomic commit). -/
def updateBetStatus (s : KVState) (betId : Nat) (st : BetStatus) : KVState :=
  { s with
    bets := s.bets.map (fun b => if b.id == betId then { b with status := st } else b) }

/-- Whether the sweep processes a wager record (source: bet.status === 'pending'
and bet.session === session). -/
def sweepHits (session : Session) (b : TwoDBet) : Bool :=
  b.status == BetStatus.pending && b.session == session

/-- One iteration of the settlement sweep loop of process2DWinnings: resolve
the wager against the winning number and, on a win whose owner exists,
credit amount × multiplier — the status write and the credit forming one
atomic commit. The accumulator carries the state and the win counter. -/
def settleStep (winningNumber : String) (session : Session) (multiplier : Int)
    (acc : KVState × Nat) (bet : TwoDBet) : KVState × Nat :=
  if sweepHits session bet then
    let isWin := bet.number == winningNumber
    let s1 := updateBetStatus acc.1 bet.id (if isWin then BetStatus.win else BetStatus.lose)
    if isWin then
      match getUser acc.1 bet.username with
      | some user =>
        (setUserBalance s1 bet.username (user.balance + bet.amount * multiplier), acc.2 + 1)
      | none => (s1, acc.2 + 1)
    else (s1, acc.2)
  else acc

/-- The settlement sweep process2DWinnings(winningNumber, session, multiplier).
today models the date the source derives from the clock; the KV iteration
over the key range ["2d_bets", today] becomes a fold over the stored
wagers of that date. Returns the final state and the paid-win count. -/
def process2DWinnings (s : KVState) (today winningNumber : String) (session : Session)
    (multiplier : Int) : KVState × Nat :=
  (s.bets.filter (fun b => b.date == today)).foldl
    (settleStep winningNumber session multiplier) (s, 0)

/-- KV key part for a session, as the source stores it. -/
def sessionName : Session → String
  | Session.Morning => "Morning"
  | Session.Evening => "Evening"

/-- Code-point lexicographic strict order on character lists, the order Deno KV
uses between string key parts (for the ASCII key parts of this app). -/
def listLtB : List Char → List Char → Bool
  | [], [] => false
  | [], _ :: _ => true
  | _ :: _, [] => false
  | a :: as, b :: bs =>
    if a.val.toNat < b.val.toNat then true
    else if b.val.toNat < a.val.toNat then false
    else listLtB as bs

/-- Strict KV order on string key parts. -/
def strLtB (a b : String) : Bool :=
  listLtB a.data b.data

/-- Strict KV order on the (date, session-name) key of a result. -/
def keyLtB (a b : String × String) : Bool :=
  strLtB a.1 b.1 || (a.1 == b.1 && strLtB a.2 b.2)

/-- Reflexive KV order on result keys. -/
def keyLeB (a b : String × String) : Bool :=
  decide (a = b) || keyLtB a b

/-- The KV key of a stored result: ["results", date, session]. -/
def rkey (r : TwoDResult) : String × String :=
  (r.date, sessionName r.session)

/-- a precedes b in the reverse:true enumeration order of kv.list: a's key is
at least b's key. -/
def recentKeyGe (a b : TwoDResult) : Prop :=
  keyLeB (rkey b) (rkey a) = true

instance : DecidableRel recentKeyGe := fun a b =>
  inferInstanceAs (Decidable (keyLeB (rkey b) (rkey a) = true))

/-- Source: getRecentResults(limit) — kv.list({prefix: ["results"]},
{limit, reverse: true}): the stored results in descending key order,
truncated to limit. -/
def getRecentResults (s : KVState) (limit : Nat) : List TwoDResult :=
  (s.results.insertionSort recentKeyGe).take limit

/-- Rank of a session within one date by publication recency: the Evening
result is published after the Morning one. -/
def sessionRank : Session → Nat
  | Session.Morning => 0
  | Session.Evening => 1

/-- a was published no earlier than b: later date, or same date and
no-earlier session. -/
def publishedAfter (a b : TwoDResult) : Prop :=
  strLtB b.date a.date = true ∨ (a.date = b.date ∧ sessionRank b.session ≤ sessionRank a.session)

instance : DecidableRel publishedAfter := fun a b => by
  unfold publishedAfter; infer_instance

/-- The spec's ordering contract for listRecentResults: most recent
publication first. -/
def mostRecentFirst (l : List TwoDResult) : Prop :=
  l.Pairwise publishedAfter

instance (l : List TwoDResult) : Decidable (mostRecentFirst l) := by
  unfold mostRecentFirst; infer_instance

/-- The account register seen by racing writers: the balance plus a version
token standing for the KV versionstamp the conditional write checks. -/
structure LedgerState where
  balance : Int
  version : Nat
  deriving DecidableEq, Repr

/-- Outcome of one debit attempt in the racing model. -/
inductive DebitOutcome where
  | success
  | insufficient
  | conflictLost
  deriving DecidableEq, Repr

/-- One in-flight bet-placement's debit, reduced to its interactions with the
account register, in source order: read the session user's record (taking
the balance the new value is computed from, and the insufficient-funds
check), then the fresh kv.get inside kv.atomic().check(...) (taking the
version the commit is conditioned on), then the commit itself. -/
structure Proc where
  cost : Int
  phase : Nat
  readBalance : Int
  checkVersion : Nat
  outcome : Option DebitOutcome
  deriving DecidableEq, Repr

/-- A placement that has not yet started. -/
def mkProc (c : Int) : Proc :=
  { cost := c, phase := 0, readBalance := 0, checkVersion := 0, outcome := none }

/-- One atomic interaction of a placement with the account register.
Phase 0: the getSessionUser read plus the balance-sufficiency check on the
value read. Phase 1: the fresh get whose versionstamp the commit checks.
Phase 2: the conditional write — it succeeds when the version still equals
the one captured in phase 1, and writes readBalance - cost. -/
def stepProc (g : LedgerState) (p : Proc) : LedgerState × Proc :=
  if p.phase = 0 then
    if g.balance < p.cost then
      (g, { p with phase := 3, outcome := some DebitOutcome.insufficient,
                   readBalance := g.balance })
    else (g, { p with phase := 1, readBalance := g.balance })
  else if p.phase = 1 then
    (g, { p with phase := 2, checkVersion := g.version })
  else if p.phase = 2 then
    if g.version = p.checkVersion then
      ({ balance := p.readBalance - p.cost, version := g.version + 1 },
       { p with phase := 3, outcome := some DebitOutcome.success })
    else (g, { p with phase := 3, outcome := some DebitOutcome.conflictLost })
  else (g, p)

/-- Run a schedule (a list of process indices) over concurrent placements:
each schedule entry lets that placement take its next atomic step. -/
def runSched : LedgerState → List Proc → List Nat → LedgerState × List Proc
  | g, ps, [] => (g, ps)
  | g, ps, i :: rest =>
    match ps[i]? with
    | none => runSched g ps rest
    | some p =>
      let gp := stepProc g p
      runSched gp.1 (ps.set i gp.2) rest

/-- One placement's debit run to completion with no interference. -/
def debitOnce (g : LedgerState) (c : Int) : LedgerState × Option DebitOutcome :=
  let r := runSched g [mkProc c] [0, 0, 0]
  (r.1, (r.2.headD (mkProc c)).outcome)

/-- Placements executed serially: each one's three steps finish before the
next begins. -/
def runSerial : LedgerState → List Int → LedgerState × List (Option DebitOutcome)
  | g, [] => (g, [])
  | g, c :: cs =>
    let r := debitOnce g c
    let rest := runSerial r.1 cs
    (rest.1, r.2 :: rest.2)

/-- All stored balances are non-negative. -/
def balancesNonneg (s : KVState) : Prop :=
  ∀ u ∈ s.users, 0 ≤ u.balance

/-- All stored wager stakes are non-negative. -/
def betAmountsNonneg (s : KVState) : Prop :=
  ∀ b ∈ s.bets, 0 ≤ b.amount

/-- Stored wager ids are pairwise distinct (source: ids are UUIDs). -/
def betIdsNodup (s : KVState) : Prop :=
  (s.bets.map (fun b => b.id)).Nodup

/-- Stored wager ids are below the fresh-id counter. -/
def betIdsFresh (s : KVState) : Prop :=
  ∀ b ∈ s.bets, b.id < s.nextId

instance (s : KVState) : Decidable (balancesNonneg s) :=
  inferInstanceAs (Decidable (∀ u ∈ s.users, 0 ≤ u.balance))

instance (s : KVState) : Decidable (betAmountsNonneg s) :=
  inferInstanceAs (Decidable (∀ b ∈ s.bets, 0 ≤ b.amount))

instance (s : KVState) : Decidable (betIdsNodup s) :=
  inferInstanceAs (Decidable (List.Nodup (s.bets.map (fun b : TwoDBet => b.id))))

instance (s : KVState) : Decidable (betIdsFresh s) :=
  inferInstanceAs (Decidable (∀ b ∈ s.bets, b.id < s.nextId))

/-! Basic store lemmas. -/

theorem getUser_mem {s : KVState} {u : String} {x : User} (h : getUser s u = some x) :
    x ∈ s.users :=
  List.mem_of_find?_eq_some h

theorem getUser_username {s : KVState} {u : String} {x : User} (h : getUser s u = some x) :
    x.username = u := by
  have := List.find?_some h
  simpa using this

theorem setUserBalance_bets (s : KVState) (u : String) (nb : Int) :
    (setUserBalance s u nb).bets = s.bets := rfl

theorem setUserBalance_results (s : KVState) (u : String) (nb : Int) :
    (setUserBalance s u nb).results = s.results := rfl

theorem balancesNonneg_setUserBalance {s : KVState} {u : String} {nb : Int}
    (hs : balancesNonneg s) (hnb : 0 ≤ nb) : balancesNonneg (setUserBalance s u nb) := by
  intro x hx
  simp only [setUserBalance, List.mem_map] at hx
  obtain ⟨y, hy, hxy⟩ := hx
  by_cases h : y.username == u
  · simp [h] at hxy
    simpa [← hxy] using hnb
  · simp [h] at hxy
    exact hxy ▸ hs y hy

theorem find?_map_setBalance (u : String) (nb : Int) :
    ∀ (l : List User) (x : User),
      l.find? (fun v => v.username == u) = some x →
      (l.map (fun v => if v.username == u then { v with balance := nb } else v)).find?
        (fun v => v.username == u) = some { x with balance := nb } := by
  intro l
  induction l with
  | nil => intro x hx; simp at hx
  | cons hd tl ih =>
    intro x hx
    by_cases hh : hd.username == u
    · simp only [List.find?, hh] at hx
      cases hx
      simp [List.find?, hh]
    · have hh' : (hd.username == u) = false := by simpa using hh
      simp only [List.find?, hh'] at hx
      simp only [List.map_cons, if_neg hh]
      simp only [List.find?, hh']
      exact ih x hx

theorem getUser_setUserBalance_same {s : KVState} {u : String} {x : User} (nb : Int)
    (h : getUser s u = some x) :
    getUser (setUserBalance s u nb) u = some { x with balance := nb } :=
  find?_map_setBalance u nb s.users x h

/-! Lemmas about the persisted wager batch. -/

theorem mkBets_map_number (u : String) (a : Int) (d : String) (sess : Session) (ts : Nat → Nat) :
    ∀ (nums : List String) (i : Nat),
      (mkBets u a d sess ts nums i).map (fun b => b.number) = nums := by
  intro nums
  induction nums with
  | nil => intro i; rfl
  | cons n rest ih => intro i; simp [mkBets, ih]

theorem mkBets_length (u : String) (a : Int) (d : String) (sess : Session) (ts : Nat → Nat)
    (nums : List String) (i : Nat) :
    (mkBets u a d sess ts nums i).length = nums.length := by
  have := mkBets_map_number u a d sess ts nums i
  simpa using congrArg List.length this

theorem mkBets_fields (u : String) (a : Int) (d : String) (sess : Session) (ts : Nat → Nat) :
    ∀ (nums : List String) (i : Nat), ∀ b ∈ mkBets u a d sess ts nums i,
      b.status = BetStatus.pending ∧ b.username = u ∧ b.amount = a ∧ b.date = d ∧
      b.session = sess ∧ b.timestamp = ts b.id ∧ i ≤ b.id ∧ b.id < i + nums.length := by
  intro nums
  induction nums with
  | nil => intro i b hb; simp [mkBets] at hb
  | cons n rest ih =>
    intro i b hb
    simp only [mkBets, List.mem_cons] at hb
    rcases hb with hb | hb
    · subst hb
      refine ⟨rfl, rfl, rfl, rfl, rfl, rfl, Nat.le.refl, ?_⟩
      show i < i + (rest.length + 1)
      omega
    · obtain ⟨h1, h2, h3, h4, h5, h6, h7, h8⟩ := ih (i + 1) b hb
      exact ⟨h1, h2, h3, h4, h5, h6, by omega, by simp only [List.length_cons]; omega⟩

theorem mkBets_map_id (u : String) (a : Int) (d : String) (sess : Session) (ts : Nat → Nat) :
    ∀ (nums : List String) (i : Nat),
      (mkBets u a d sess ts nums i).map (fun b => b.id) = List.range' i nums.length := by
  intro nums
  induction nums with
  | nil => intro i; rfl
  | cons n rest ih => intro i; simp [mkBets, List.range', ih]

/-! Branch equations of the bet-placement handler. -/

theorem placeBet_insufficient {s : KVState} {username betType number : String} {amount : Int}
    {hour : Nat} {today : String} {ts : Nat → Nat} {casOk : List Bool} {user : User}
    {sess : Session} {nums : List String}
    (hu : getUser s username = some user) (h100 : ¬ amount < 100)
    (hsess : sessionOfHour hour = some sess) (hexp : expand2D betType number = some nums)
    (hbal : user.balance < (nums.length : Int) * amount) :
    placeBet s username betType number amount hour today ts casOk =
      (BetResult.insufficientFunds, s, 0) := by
  simp [placeBet, hu, h100, hsess, hexp, hbal]

theorem placeBet_success {s : KVState} {username betType number : String} {amount : Int}
    {hour : Nat} {today : String} {ts : Nat → Nat} {casOk : List Bool} {user : User}
    {sess : Session} {nums : List String}
    (hu : getUser s username = some user) (h100 : ¬ amount < 100)
    (hsess : sessionOfHour hour = some sess) (hexp : expand2D betType number = some nums)
    (hbal : ¬ user.balance < (nums.length : Int) * amount)
    (hcas : casFirstOk casOk = true) :
    placeBet s username betType number amount hour today ts casOk =
      (BetResult.ok (user.balance - (nums.length : Int) * amount),
       { setUserBalance s username (user.balance - (nums.length : Int) * amount) with
           bets := s.bets ++ mkBets username amount today sess ts nums s.nextId,
           nextId := s.nextId + nums.length }, 1) := by
  simp [placeBet, hu, h100, hsess, hexp, hbal, hcas, setUserBalance]

theorem placeBet_state_of_not_ok {s : KVState} {username betType number : String}
    {amount : Int} {hour : Nat} {today : String} {ts : Nat → Nat} {casOk : List Bool}
    (h : ∀ nb, (placeBet s username betType number amount hour today ts casOk).1 ≠
      BetResult.ok nb) :
    (placeBet s username betType number amount hour today ts casOk).2.1 = s := by
  rcases hu : getUser s username with _ | user
  · simp [placeBet, hu]
  · by_cases h100 : amount < 100
    · simp [placeBet, hu, h100]
    · rcases hsess : sessionOfHour hour with _ | sess
      · simp [placeBet, hu, h100, hsess]
      · rcases hexp : expand2D betType number with _ | nums
        · simp [placeBet, hu, h100, hsess, hexp]
        · by_cases hbal : user.balance < (nums.length : Int) * amount
          · simp [placeBet, hu, h100, hsess, hexp, hbal]
          · by_cases hcas : casFirstOk casOk = false
            · simp [placeBet, hu, h100, hsess, hexp, hbal, hcas]
            · have hcas' : casFirstOk casOk = true := by simpa using hcas
              refine absurd ?_ (h (user.balance - (nums.length : Int) * amount))
              rw [placeBet_success hu h100 hsess hexp hbal hcas']

/-! Non-negativity preservation (the §3 Account invariant). -/

theorem balancesNonneg_placeBet {s : KVState} {username betType number : String}
    {amount : Int} {hour : Nat} {today : String} {ts : Nat → Nat} {casOk : List Bool}
    (hs : balancesNonneg s) :
    balancesNonneg (placeBet s username betType number amount hour today ts casOk).2.1 := by
  rcases hu : getUser s username with _ | user
  · simpa [placeBet, hu] using hs
  · by_cases h100 : amount < 100
    · simpa [placeBet, hu, h100] using hs
    · rcases hsess : sessionOfHour hour with _ | sess
      · simpa [placeBet, hu, h100, hsess] using hs
      · rcases hexp : expand2D betType number with _ | nums
        · simpa [placeBet, hu, h100, hsess, hexp] using hs
        · by_cases hbal : user.balance < (nums.length : Int) * amount
          · simpa [placeBet, hu, h100, hsess, hexp, hbal] using hs
          · by_cases hcas : casFirstOk casOk = false
            · simpa [placeBet, hu, h100, hsess, hexp, hbal, hcas] using hs
            · have hcas' : casFirstOk casOk = true := by simpa using hcas
              rw [placeBet_success hu h100 hsess hexp hbal hcas']
              have hnb : 0 ≤ user.balance - (nums.length : Int) * amount := by omega
              exact balancesNonneg_setUserBalance hs hnb

theorem adminTopUp_nonpos {s : KVState} {target : String} {amount : Int}
    {casOk : List Bool} {u : User}
    (hu : getUser s target = some u) (h : amount ≤ 0) :
    adminTopUp s target amount casOk = (TopUpResult.invalid, s, 0) := by
  simp [adminTopUp, hu, h]

theorem balancesNonneg_adminTopUp {s : KVState} {target : String} {amount : Int}
    {casOk : List Bool} (hs : balancesNonneg s) :
    balancesNonneg (adminTopUp s target amount casOk).2.1 := by
  rcases hu : getUser s target with _ | u
  · simpa [adminTopUp, hu] using hs
  · by_cases h0 : amount ≤ 0
    · simpa [adminTopUp, hu, h0] using hs
    · by_cases hcas : casFirstOk casOk = false
      · simpa [adminTopUp, hu, h0, hcas] using hs
      · have hcas' : casFirstOk casOk = true := by simpa using hcas
        have hub : 0 ≤ u.balance := hs u (getUser_mem hu)
        have hnb : 0 ≤ u.balance + amount := by omega
        simpa [adminTopUp, hu, h0, hcas'] using balancesNonneg_setUserBalance hs hnb

theorem updateBetStatus_users (s : KVState) (i : Nat) (st : BetStatus) :
    (updateBetStatus s i st).users = s.users := rfl

theorem settleStep_nonneg {w : String} {sess : Session} {m : Int} {acc : KVState × Nat}
    {bet : TwoDBet} (hs : balancesNonneg acc.1) (hb : 0 ≤ bet.amount) (hm : 0 ≤ m) :
    balancesNonneg (settleStep w sess m acc bet).1 := by
  unfold settleStep
  by_cases hc : sweepHits sess bet
  · by_cases hw : bet.number == w
    · rcases hg : getUser acc.1 bet.username with _ | user
      · simpa [hc, hw, hg] using hs
      · have hub : 0 ≤ user.balance := hs user (getUser_mem hg)
        have hnb : 0 ≤ user.balance + bet.amount * m :=
          add_nonneg hub (mul_nonneg hb hm)
        simp only [hc, hw, hg, if_true]
        exact balancesNonneg_setUserBalance (by simpa [updateBetStatus] using hs) hnb
    · simpa [hc, hw] using hs
  · simpa [hc] using hs

theorem settle_fold_nonneg {w : String} {sess : Session} {m : Int} (hm : 0 ≤ m) :
    ∀ (L : List TwoDBet) (acc : KVState × Nat), balancesNonneg acc.1 →
      (∀ b ∈ L, 0 ≤ b.amount) →
      balancesNonneg ((L.foldl (settleStep w sess m) acc).1) := by
  intro L
  induction L with
  | nil => intro acc hacc _; exact hacc
  | cons hd tl ih =>
    intro acc hacc hL
    simp only [List.foldl_cons]
    exact ih _ (settleStep_nonneg hacc (hL hd (by simp)) hm)
      (fun b hb => hL b (by simp [hb]))

theorem balancesNonneg_process2DWinnings {s : KVState} {today w : String} {sess : Session}
    {m : Int} (hs : balancesNonneg s) (hb : betAmountsNonneg s) (hm : 0 ≤ m) :
    balancesNonneg (process2DWinnings s today w sess m).1 := by
  apply settle_fold_nonneg hm _ _ hs
  intro b hbm
  exact hb b (List.mem_of_mem_filter hbm)

/-! Resolution lemmas for the settlement sweep. -/

/-- The outcome the sweep assigns a processed wager: win exactly when its
number equals the winning number. -/
def resolveStatus (w : String) (b : TwoDBet) : BetStatus :=
  if b.number = w then BetStatus.win else BetStatus.lose

theorem settleStep_not_hit {w : String} {sess : Session} {m : Int} {acc : KVState × Nat}
    {bet : TwoDBet} (h : sweepHits sess bet = false) :
    settleStep w sess m acc bet = acc := by
  simp [settleStep, h]

theorem settleStep_bets_hit {w : String} {sess : Session} {m : Int} {acc : KVState × Nat}
    {bet : TwoDBet} (hhit : sweepHits sess bet = true) :
    ((settleStep w sess m acc bet).1).bets =
      (updateBetStatus acc.1 bet.id
        (if bet.number == w then BetStatus.win else BetStatus.lose)).bets := by
  unfold settleStep
  rcases hg : getUser acc.1 bet.username with _ | u <;>
    by_cases hw : bet.number == w <;>
      simp [hhit, hg, hw, setUserBalance_bets]

theorem map_id_updateBetStatus (s : KVState) (i : Nat) (st : BetStatus) :
    (updateBetStatus s i st).bets.map (fun b => b.id) = s.bets.map (fun b => b.id) := by
  unfold updateBetStatus
  simp only [List.map_map]
  apply List.map_congr_left
  intro b _
  by_cases h : b.id = i <;> simp [h]

theorem mem_statusUpd_of_ne {l : List TwoDBet} {x : TwoDBet} (hx : x ∈ l) {i : Nat}
    (hne : x.id ≠ i) (st : BetStatus) :
    x ∈ l.map (fun b => if b.id == i then { b with status := st } else b) := by
  refine List.mem_map.mpr ⟨x, hx, ?_⟩
  have h : (x.id == i) = false := by simpa using hne
  simp [h]

theorem settleStep_mem_of_ne {w : String} {sess : Session} {m : Int} {acc : KVState × Nat}
    {bet : TwoDBet} {x : TwoDBet} (hx : x ∈ acc.1.bets) (hne : x.id ≠ bet.id) :
    x ∈ ((settleStep w sess m acc bet).1).bets := by
  by_cases hhit : sweepHits sess bet
  · rw [settleStep_bets_hit hhit]
    exact mem_statusUpd_of_ne hx hne _
  · rw [settleStep_not_hit (by simpa using hhit)]
    exact hx

theorem settleStep_map_id {w : String} {sess : Session} {m : Int} {acc : KVState × Nat}
    {bet : TwoDBet} :
    ((settleStep w sess m acc bet).1).bets.map (fun b => b.id) =
      acc.1.bets.map (fun b => b.id) := by
  by_cases hhit : sweepHits sess bet
  · rw [settleStep_bets_hit hhit]
    exact map_id_updateBetStatus acc.1 bet.id _
  · rw [settleStep_not_hit (by simpa using hhit)]

theorem settle_fold_map_id {w : String} {sess : Session} {m : Int} :
    ∀ (L : List TwoDBet) (acc : KVState × Nat),
      ((L.foldl (settleStep w sess m) acc).1).bets.map (fun b => b.id) =
        acc.1.bets.map (fun b => b.id) := by
  intro L
  induction L with
  | nil => intro acc; rfl
  | cons h T ih =>
    intro acc
    simp only [List.foldl_cons]
    rw [ih, settleStep_map_id]

theorem settle_fold_untouched {w : String} {sess : Session} {m : Int} :
    ∀ (L : List TwoDBet) (acc : KVState × Nat) (x : TwoDBet), x ∈ acc.1.bets →
      (∀ r ∈ L, r.id = x.id → sweepHits sess r = false) →
      x ∈ ((L.foldl (settleStep w sess m) acc).1).bets := by
  intro L
  induction L with
  | nil => intro acc x hx _; exact hx
  | cons h T ih =>
    intro acc x hx hL
    simp only [List.foldl_cons]
    by_cases hid : h.id = x.id
    · rw [settleStep_not_hit (hL h (by simp) hid)]
      exact ih acc x hx (fun r hr => hL r (by simp [hr]))
    · exact ih _ x (settleStep_mem_of_ne hx (fun he => hid he.symm))
        (fun r hr => hL r (by simp [hr]))

theorem settle_fold_resolved {w : String} {sess : Session} {m : Int} :
    ∀ (L : List TwoDBet) (acc : KVState × Nat),
      (L.map (fun b => b.id)).Nodup →
      (∀ r ∈ L, r ∈ acc.1.bets) →
      ∀ r ∈ L, sweepHits sess r = true →
        ∃ b' ∈ ((L.foldl (settleStep w sess m) acc).1).bets,
          b'.id = r.id ∧ b'.username = r.username ∧ b'.number = r.number ∧
          b'.amount = r.amount ∧ b'.date = r.date ∧ b'.session = r.session ∧
          b'.timestamp = r.timestamp ∧ b'.status = resolveStatus w r := by
  intro L
  induction L with
  | nil => intro acc _ _ r hr; simp at hr
  | cons h T ih =>
    intro acc hnd hin r hr hhit
    simp only [List.foldl_cons]
    simp only [List.map_cons, List.nodup_cons] at hnd
    rcases List.mem_cons.mp hr with rfl | hrT
    · have hmem : ({ r with status := if r.number == w then BetStatus.win else BetStatus.lose })
          ∈ ((settleStep w sess m acc r).1).bets := by
        rw [settleStep_bets_hit hhit]
        refine List.mem_map.mpr ⟨r, hin r (by simp), ?_⟩
        simp
      have hfin := @settle_fold_untouched w sess m T (settleStep w sess m acc r) _ hmem
        (fun r' hr' he => absurd (he ▸ List.mem_map_of_mem (fun b => b.id) hr') hnd.1)
      refine ⟨_, hfin, rfl, rfl, rfl, rfl, rfl, rfl, rfl, ?_⟩
      by_cases hw : r.number = w <;> simp [resolveStatus, hw]
    · exact ih (settleStep w sess m acc h) hnd.2
        (fun r' hr' => settleStep_mem_of_ne (hin r' (by simp [hr']))
          (fun he => hnd.1 (he ▸ List.mem_map_of_mem (fun b => b.id) hr')))
        r hrT hhit

/-- After one step of the sweep, each stored wager descends from a stored
wager of the previous state with the same id, date and session, the status
either untouched or no longer pending. -/
def betEvolved (x b' : TwoDBet) : Prop :=
  b'.id = x.id ∧ b'.date = x.date ∧ b'.session = x.session ∧
    (b'.status = x.status ∨ b'.status ≠ BetStatus.pending)

theorem betEvolved_trans {x y z : TwoDBet} (h1 : betEvolved x y) (h2 : betEvolved y z) :
    betEvolved x z := by
  obtain ⟨i1, d1, s1, st1⟩ := h1
  obtain ⟨i2, d2, s2, st2⟩ := h2
  refine ⟨i2.trans i1, d2.trans d1, s2.trans s1, ?_⟩
  rcases st2 with h | h
  · rcases st1 with h' | h'
    · exact Or.inl (h.trans h')
    · exact Or.inr (h ▸ h')
  · exact Or.inr h

theorem settleStep_origin {w : String} {sess : Session} {m : Int} {acc : KVState × Nat}
    {bet : TwoDBet} {b' : TwoDBet} (hb : b' ∈ ((settleStep w sess m acc bet).1).bets) :
    ∃ x ∈ acc.1.bets, betEvolved x b' := by
  by_cases hhit : sweepHits sess bet
  · rw [settleStep_bets_hit hhit] at hb
    have hb' : b' ∈ acc.1.bets.map
        (fun b => if b.id == bet.id
          then { b with status := if bet.number == w then BetStatus.win else BetStatus.lose }
          else b) := hb
    obtain ⟨x, hx, hxe⟩ := List.mem_map.mp hb'
    by_cases hxi : x.id == bet.id
    · rw [if_pos hxi] at hxe
      refine ⟨x, hx, ?_⟩
      rw [← hxe]
      refine ⟨rfl, rfl, rfl, Or.inr ?_⟩
      by_cases hw : bet.number == w <;> simp [hw]
    · rw [if_neg hxi] at hxe
      exact ⟨x, hx, hxe ▸ ⟨rfl, rfl, rfl, Or.inl rfl⟩⟩
  · rw [settleStep_not_hit (by simpa using hhit)] at hb
    exact ⟨b', hb, rfl, rfl, rfl, Or.inl rfl⟩

theorem settle_fold_origin {w : String} {sess : Session} {m : Int} :
    ∀ (L : List TwoDBet) (acc : KVState × Nat) (b' : TwoDBet),
      b' ∈ ((L.foldl (settleStep w sess m) acc).1).bets →
      ∃ x ∈ acc.1.bets, betEvolved x b' := by
  intro L
  induction L with
  | nil => intro acc b' hb; exact ⟨b', hb, rfl, rfl, rfl, Or.inl rfl⟩
  | cons h T ih =>
    intro acc b' hb
    simp only [List.foldl_cons] at hb
    obtain ⟨y, hy, hev⟩ := ih _ b' hb
    obtain ⟨x, hx, hev'⟩ := settleStep_origin hy
    exact ⟨x, hx, betEvolved_trans hev' hev⟩

theorem settle_fold_noop {w : String} {sess : Session} {m : Int} :
    ∀ (L : List TwoDBet) (acc : KVState × Nat),
      (∀ r ∈ L, sweepHits sess r = false) →
      L.foldl (settleStep w sess m) acc = acc := by
  intro L
  induction L with
  | nil => intro acc _; rfl
  | cons h T ih =>
    intro acc hL
    simp only [List.foldl_cons]
    rw [settleStep_not_hit (hL h (by simp))]
    exact ih acc (fun r hr => hL r (by simp [hr]))

/-! Sweep-level consequences. -/

theorem process2DWinnings_resolved {s : KVState} {today w : String} {sess : Session}
    {m : Int} (hnd : betIdsNodup s) :
    ∀ b ∈ s.bets, b.date = today → sweepHits sess b = true →
      ∃ b' ∈ (process2DWinnings s today w sess m).1.bets,
        b'.id = b.id ∧ b'.username = b.username ∧ b'.number = b.number ∧
        b'.amount = b.amount ∧ b'.date = b.date ∧ b'.session = b.session ∧
        b'.timestamp = b.timestamp ∧ b'.status = resolveStatus w b := by
  intro b hb hdate hhit
  have hsub : List.Sublist (s.bets.filter (fun b => b.date == today)) s.bets :=
    List.filter_sublist s.bets
  have hnd' : (s.bets.map (fun b => b.id)).Nodup := hnd
  exact settle_fold_resolved _ (s, 0)
    ((hsub.map (fun b => b.id)).nodup hnd')
    (fun r hr => List.mem_of_mem_filter hr)
    b (List.mem_filter.mpr ⟨hb, by simp [hdate]⟩) hhit

theorem process2DWinnings_nodup {s : KVState} {today w : String} {sess : Session}
    {m : Int} (hnd : betIdsNodup s) :
    ((process2DWinnings s today w sess m).1.bets.map (fun b => b.id)).Nodup := by
  unfold process2DWinnings
  rw [settle_fold_map_id]
  exact hnd

theorem process2DWinnings_no_pending {s : KVState} {today w : String} {sess : Session}
    {m : Int} (hnd : betIdsNodup s) :
    ∀ b' ∈ (process2DWinnings s today w sess m).1.bets,
      ¬(b'.date = today ∧ b'.session = sess ∧ b'.status = BetStatus.pending) := by
  rintro b' hb' ⟨hd, hsess, hst⟩
  obtain ⟨x, hx, hid, hdate, hses, hstat⟩ := settle_fold_origin _ (s, 0) b' hb'
  have hxpending : x.status = BetStatus.pending := by
    rcases hstat with h | h
    · exact h ▸ hst
    · exact absurd hst h
  have hxs : x.session = sess := by rw [← hses]; exact hsess
  have hxd : x.date = today := by rw [← hdate]; exact hd
  have hxhit : sweepHits sess x = true := by
    simp [sweepHits, hxpending, hxs]
  obtain ⟨b'', hb'', hid'', _, _, _, _, _, _, hstat''⟩ :=
    @process2DWinnings_resolved s today w sess m hnd x hx hxd hxhit
  have heq : b' = b'' :=
    List.inj_on_of_nodup_map (process2DWinnings_nodup hnd) hb' hb'' (by rw [hid, hid''])
  rw [heq, hstat''] at hst
  unfold resolveStatus at hst
  by_cases hw : x.number = w <;> simp [hw] at hst

theorem process2DWinnings_idem {s : KVState} {today w : String} {sess : Session}
    {m : Int} (hnd : betIdsNodup s) :
    process2DWinnings (process2DWinnings s today w sess m).1 today w sess m =
      ((process2DWinnings s today w sess m).1, 0) := by
  apply settle_fold_noop
  intro r hr
  have hrm := List.mem_of_mem_filter hr
  have hrd : r.date = today := by
    have := List.of_mem_filter hr
    simpa using this
  by_cases hhit : sweepHits sess r
  · have : r.status = BetStatus.pending ∧ r.session = sess := by
      simpa [sweepHits] using hhit
    exact absurd ⟨hrd, this.2, this.1⟩ (process2DWinnings_no_pending hnd r hrm)
  · simpa using hhit

/-! Order lemmas for the KV key comparison. -/

theorem char_eq_of_val_eq {a b : Char} (h : a.val.toNat = b.val.toNat) : a = b := by
  cases a; cases b
  simp only at h
  congr 1
  exact UInt32.ext h

theorem listLtB_cons (a b : Char) (as bs : List Char) :
    listLtB (a :: as) (b :: bs) =
      if a.val.toNat < b.val.toNat then true
      else if b.val.toNat < a.val.toNat then false
      else listLtB as bs := rfl

theorem listLtB_trans : ∀ (a b c : List Char),
    listLtB a b = true → listLtB b c = true → listLtB a c = true
  | [], [], _, hab, _ => by simp [listLtB] at hab
  | [], _ :: _, [], _, hbc => by simp [listLtB] at hbc
  | [], _ :: _, _ :: _, _, _ => by simp [listLtB]
  | _ :: _, [], _, hab, _ => by simp [listLtB] at hab
  | _ :: _, _ :: _, [], _, hbc => by simp [listLtB] at hbc
  | a :: as, b :: bs, c :: cs, hab, hbc => by
    rw [listLtB_cons] at hab hbc ⊢
    rcases Nat.lt_trichotomy a.val.toNat b.val.toNat with h1 | h1 | h1
    · rcases Nat.lt_trichotomy b.val.toNat c.val.toNat with h2 | h2 | h2
      · rw [if_pos (by omega)]
      · rw [if_pos (by omega)]
      · rw [if_neg (by omega), if_pos (by omega)] at hbc
        exact absurd hbc (by simp)
    · rcases Nat.lt_trichotomy b.val.toNat c.val.toNat with h2 | h2 | h2
      · rw [if_pos (by omega)]
      · rw [if_neg (by omega), if_neg (by omega)] at hab
        rw [if_neg (by omega), if_neg (by omega)] at hbc
        rw [if_neg (by omega), if_neg (by omega)]
        exact listLtB_trans as bs cs hab hbc
      · rw [if_neg (by omega), if_pos (by omega)] at hbc
        exact absurd hbc (by simp)
    · rw [if_neg (by omega), if_pos (by omega)] at hab
      exact absurd hab (by simp)

theorem listLtB_connex : ∀ (a b : List Char),
    listLtB a b = false → listLtB b a = false → a = b
  | [], [], _, _ => rfl
  | [], _ :: _, hab, _ => by simp [listLtB] at hab
  | _ :: _, [], _, hba => by simp [listLtB] at hba
  | a :: as, b :: bs, hab, hba => by
    rw [listLtB_cons] at hab hba
    rcases Nat.lt_trichotomy a.val.toNat b.val.toNat with h1 | h1 | h1
    · rw [if_pos h1] at hab
      exact absurd hab (by simp)
    · have hc : a = b := char_eq_of_val_eq h1
      subst hc
      rw [if_neg (by omega), if_neg (by omega)] at hab hba
      rw [listLtB_connex as bs hab hba]
    · rw [if_pos h1] at hba
      exact absurd hba (by simp)

theorem strLtB_trans {a b c : String} (h1 : strLtB a b = true) (h2 : strLtB b c = true) :
    strLtB a c = true :=
  listLtB_trans a.data b.data c.data h1 h2

theorem strLtB_connex {a b : String} (h1 : strLtB a b = false) (h2 : strLtB b a = false) :
    a = b := by
  have h := listLtB_connex a.data b.data h1 h2
  cases a; cases b
  simp only at h
  rw [h]

theorem keyLtB_trans {p q r : String × String} (h1 : keyLtB p q = true)
    (h2 : keyLtB q r = true) : keyLtB p r = true := by
  simp only [keyLtB, Bool.or_eq_true, Bool.and_eq_true, beq_iff_eq] at h1 h2 ⊢
  rcases h1 with h1 | ⟨h1e, h1s⟩
  · rcases h2 with h2 | ⟨h2e, h2s⟩
    · exact Or.inl (strLtB_trans h1 h2)
    · exact Or.inl (h2e ▸ h1)
  · rcases h2 with h2 | ⟨h2e, h2s⟩
    · exact Or.inl (h1e ▸ h2)
    · exact Or.inr ⟨h1e.trans h2e, strLtB_trans h1s h2s⟩

theorem keyLeB_trans {p q r : String × String} (h1 : keyLeB p q = true)
    (h2 : keyLeB q r = true) : keyLeB p r = true := by
  simp only [keyLeB, Bool.or_eq_true, decide_eq_true_eq] at h1 h2 ⊢
  rcases h1 with rfl | h1
  · exact h2.imp id id
  · rcases h2 with rfl | h2
    · exact Or.inr h1
    · exact Or.inr (keyLtB_trans h1 h2)

theorem keyLeB_total (p q : String × String) :
    keyLeB p q = true ∨ keyLeB q p = true := by
  simp only [keyLeB, Bool.or_eq_true, decide_eq_true_eq]
  by_cases e : p = q
  · exact Or.inl (Or.inl e)
  · cases p with
    | mk p1 p2 =>
      cases q with
      | mk q1 q2 =>
        simp only [keyLtB, Bool.or_eq_true, Bool.and_eq_true, beq_iff_eq]
        by_cases hf : strLtB p1 q1 = true
        · exact Or.inl (Or.inr (Or.inl hf))
        · have hf0 : strLtB p1 q1 = false := by simpa using hf
          by_cases hf' : strLtB q1 p1 = true
          · exact Or.inr (Or.inr (Or.inl hf'))
          · have hf0' : strLtB q1 p1 = false := by simpa using hf'
            have he1 : p1 = q1 := strLtB_connex hf0 hf0'
            subst he1
            by_cases hs : strLtB p2 q2 = true
            · exact Or.inl (Or.inr (Or.inr ⟨rfl, hs⟩))
            · have hs0 : strLtB p2 q2 = false := by simpa using hs
              by_cases hs' : strLtB q2 p2 = true
              · exact Or.inr (Or.inr (Or.inr ⟨rfl, hs'⟩))
              · have hs0' : strLtB q2 p2 = false := by simpa using hs'
                exact absurd (by rw [strLtB_connex hs0 hs0']) e

instance : IsTotal TwoDResult recentKeyGe :=
  ⟨fun a b => (keyLeB_total (rkey b) (rkey a)).imp (fun h => h) (fun h => h)⟩

instance : IsTrans TwoDResult recentKeyGe :=
  ⟨fun _ _ _ h1 h2 => keyLeB_trans h2 h1⟩

theorem getRecentResults_sorted (s : KVState) (limit : Nat) :
    List.Sorted recentKeyGe (getRecentResults s limit) := by
  unfold getRecentResults
  exact (List.sorted_insertionSort recentKeyGe s.results).sublist (List.take_sublist _ _)

theorem getRecentResults_length (s : KVState) (limit : Nat) :
    (getRecentResults s limit).length ≤ limit := by
  unfold getRecentResults
  exact List.length_take_le _ _

/-! Lemmas for the serial execution of the debit protocol. -/

theorem debitOnce_success {g : LedgerState} {c : Int} (h : c ≤ g.balance) :
    debitOnce g c =
      ({ balance := g.balance - c, version := g.version + 1 }, some DebitOutcome.success) := by
  have h' : ¬ g.balance < c := not_lt.mpr h
  simp [debitOnce, runSched, stepProc, mkProc, h']

theorem runSerial_success {costs : List Int} (hpos : ∀ c ∈ costs, 0 ≤ c) :
    ∀ (g : LedgerState), costs.sum ≤ g.balance →
      runSerial g costs =
        ({ balance := g.balance - costs.sum, version := g.version + costs.length },
         costs.map (fun _ => some DebitOutcome.success)) := by
  induction costs with
  | nil => intro g _; simp [runSerial]
  | cons c cs ih =>
    intro g hsum
    have hrest : 0 ≤ cs.sum := List.sum_nonneg (fun x hx => hpos x (by simp [hx]))
    have hc : c ≤ g.balance := by
      simp only [List.sum_cons] at hsum
      omega
    have hsum' : cs.sum ≤ g.balance - c := by
      simp only [List.sum_cons] at hsum
      omega
    simp only [runSerial, debitOnce_success hc]
    rw [ih (fun x hx => hpos x (by simp [hx])) _ hsum']
    simp only [List.sum_cons, List.length_cons, List.map_cons]
    refine Prod.ext ?_ rfl
    show LedgerState.mk (g.balance - c - cs.sum) (g.version + 1 + cs.length) =
      LedgerState.mk (g.balance - (c + cs.sum)) (g.version + (cs.length + 1))
    congr 1
    · omega
    · omega

/-! Canonical forms of the bet-type expansion. -/

theorem expand2D_direct {n : String} (h : isDigits n 2 = true) :
    expand2D "direct" n = some [n] := by
  simp [expand2D, h]

theorem expand2D_r {n : String} (h : isDigits n 2 = true) :
    expand2D "r" n =
      some (if reverseStr n = n then [n] else [n, reverseStr n]) := by
  by_cases hp : reverseStr n = n <;> simp [expand2D, h, hp]

theorem expand2D_double (x : String) :
    expand2D "double" x =
      some ["00", "11", "22", "33", "44", "55", "66", "77", "88", "99"] := rfl

theorem expand2D_head {d : String} (h : isDigits d 1 = true) :
    expand2D "head" d = some ((List.range 10).map (fun i => d ++ toString i)) := by
  simp [expand2D, h]

theorem expand2D_tail {d : String} (h : isDigits d 1 = true) :
    expand2D "tail" d = some ((List.range 10).map (fun i => toString i ++ d)) := by
  simp [expand2D, h]

theorem expand2D_unknown {t n : String} (h1 : t ≠ "double") (h2 : t ≠ "head")
    (h3 : t ≠ "tail") (h4 : t ≠ "r") (h5 : t ≠ "direct") :
    expand2D t n = none := by
  simp [expand2D, h1, h2, h3, h4, h5]

theorem str_append_left_cancel {d x y : String} (h : d ++ x = d ++ y) : x = y := by
  have hd : d.data ++ x.data = d.data ++ y.data := by
    rw [← String.data_append, ← String.data_append, h]
  have := List.append_cancel_left hd
  cases x; cases y
  simp only at this
  rw [this]

theorem str_append_right_cancel {d x y : String} (h : x ++ d = y ++ d) : x = y := by
  have hd : x.data ++ d.data = y.data ++ d.data := by
    rw [← String.data_append, ← String.data_append, h]
  have := List.append_cancel_right hd
  cases x; cases y
  simp only at this
  rw [this]

theorem toString_digit_inj :
    ∀ i ∈ List.range 10, ∀ j ∈ List.range 10, toString i = toString j → i = j := by
  decide

theorem head_expansion_nodup (d : String) :
    ((List.range 10).map (fun i => d ++ toString i)).Nodup := by
  refine List.Nodup.map_on ?_ (List.nodup_range 10)
  intro i hi j hj hij
  exact toString_digit_inj i hi j hj (str_append_left_cancel hij)

theorem tail_expansion_nodup (d : String) :
    ((List.range 10).map (fun i => toString i ++ d)).Nodup := by
  refine List.Nodup.map_on ?_ (List.nodup_range 10)
  intro i hi j hj hij
  exact toString_digit_inj i hi j hj (str_append_right_cancel hij)

theorem r_expansion_nodup (n : String) :
    (if reverseStr n = n then [n] else [n, reverseStr n]).Nodup := by
  by_cases hp : reverseStr n = n
  · simp [hp]
  · simp [hp]
    exact fun he => hp he.symm

/-! The per-wager atomic commit of the sweep, in its two winning shapes. -/

theorem settleStep_win_atomic {w : String} {sess : Session} {m : Int}
    {acc : KVState × Nat} {bet : TwoDBet} {user : User}
    (hp : bet.status = BetStatus.pending) (hsess : bet.session = sess)
    (hwin : bet.number = w) (hu : getUser acc.1 bet.username = some user) :
    settleStep w sess m acc bet =
      (setUserBalance (updateBetStatus acc.1 bet.id BetStatus.win) bet.username
        (user.balance + bet.amount * m), acc.2 + 1) := by
  simp [settleStep, sweepHits, hp, hsess, hwin, hu]

theorem settleStep_win_missing_user {w : String} {sess : Session} {m : Int}
    {acc : KVState × Nat} {bet : TwoDBet}
    (hp : bet.status = BetStatus.pending) (hsess : bet.session = sess)
    (hwin : bet.number = w) (hu : getUser acc.1 bet.username = none) :
    settleStep w sess m acc bet =
      (updateBetStatus acc.1 bet.id BetStatus.win, acc.2 + 1) := by
  simp [settleStep, sweepHits, hp, hsess, hwin, hu]

/-! Concrete stores used to evaluate the claim theorems. -/

/-- A store with one funded account and no wagers. -/
def sAlice : KVState :=
  ⟨[⟨"alice", 1000, false, 0⟩], [], [], 0⟩

/-- A store with one funded account and one pending wager on "23". -/
def sPending : KVState :=
  ⟨[⟨"alice", 1000, false, 0⟩],
   [⟨0, "alice", "23", 100, "2025-01-01", Session.Morning, BetStatus.pending, 5⟩], [], 1⟩

/-- A store with a pending winning wager whose owner account does not exist. -/
def sOrphan : KVState :=
  ⟨[], [⟨0, "bob", "23", 100, "2025-01-01", Session.Morning, BetStatus.pending, 5⟩], [], 1⟩

/-- A store holding a Morning and an Evening result of the same date, and an
older result. -/
def sResults : KVState :=
  ⟨[], [],
   [⟨"2024-12-31", "12:01 PM", "33", Session.Morning⟩,
    ⟨"2025-01-01", "12:01 PM", "11", Session.Morning⟩,
    ⟨"2025-01-01", "4:30 PM", "22", Session.Evening⟩], 0⟩

/-- C1: every core operation (wager placement debit, administrative top-up,
settlement credit) leaves every account balance a non-negative integer
(balances are Int in the model, so integrality is by type), and an operation
whose write would need more funds than the balance holds is rejected before
any write, leaving the whole store unchanged: an insufficient placement
returns insufficientFunds with the original store, and a non-positive top-up
returns invalid with the original store. -/
theorem claim1_balances_nonneg
    (s : KVState) (username betType number : String) (amount : Int) (hour : Nat)
    (today : String) (ts : Nat → Nat) (casOk : List Bool) (target : String) (tamount : Int)
    (w : String) (sess : Session) (m : Int)
    (hs : balancesNonneg s) (hb : betAmountsNonneg s) (hm : 0 ≤ m) :
    balancesNonneg (placeBet s username betType number amount hour today ts casOk).2.1 ∧
    balancesNonneg (adminTopUp s target tamount casOk).2.1 ∧
    balancesNonneg (process2DWinnings s today w sess m).1 ∧
    (∀ user nums sess0, getUser s username = some user → ¬ amount < 100 →
      sessionOfHour hour = some sess0 → expand2D betType number = some nums →
      user.balance < (nums.length : Int) * amount →
      placeBet s username betType number amount hour today ts casOk =
        (BetResult.insufficientFunds, s, 0)) ∧
    (∀ tuser, getUser s target = some tuser → tamount ≤ 0 →
      adminTopUp s target tamount casOk = (TopUpResult.invalid, s, 0)) := by
  refine ⟨balancesNonneg_placeBet hs, balancesNonneg_adminTopUp hs,
    balancesNonneg_process2DWinnings hs hb hm, ?_, ?_⟩
  · intro user nums sess0 hu h100 hsess hexp hbal
    exact @placeBet_insufficient s username betType number amount hour today ts casOk
      user sess0 nums hu h100 hsess hexp hbal
  · intro tuser hu h0
    exact @adminTopUp_nonpos s target tamount casOk tuser hu h0

/-- Witness for C1 at the concrete store sAlice. -/
theorem claim1_witness :
    balancesNonneg (placeBet sAlice "alice" "direct" "23" 100 10 "2025-01-01" (fun _ => 5) []).2.1 ∧
    balancesNonneg (adminTopUp sAlice "alice" 500 []).2.1 ∧
    balancesNonneg (process2DWinnings sAlice "2025-01-01" "23" Session.Morning 80).1 ∧
    (∀ user nums sess0, getUser sAlice "alice" = some user → ¬ (100 : Int) < 100 →
      sessionOfHour 10 = some sess0 → expand2D "direct" "23" = some nums →
      user.balance < (nums.length : Int) * 100 →
      placeBet sAlice "alice" "direct" "23" 100 10 "2025-01-01" (fun _ => 5) [] =
        (BetResult.insufficientFunds, sAlice, 0)) ∧
    (∀ tuser, getUser sAlice "alice" = some tuser → (500 : Int) ≤ 0 →
      adminTopUp sAlice "alice" 500 [] = (TopUpResult.invalid, sAlice, 0)) :=
  claim1_balances_nonneg sAlice "alice" "direct" "23" 100 10 "2025-01-01" (fun _ => 5) [] "alice" 500
    "23" Session.Morning 80 (by decide) (by decide) (by decide)

/-- C2: a placement whose total cost exceeds the owner's balance returns
insufficientFunds and leaves the store untouched — no debit and no wager
record is written. -/
theorem claim2_insufficient_funds (s : KVState) (username betType number : String)
    (amount : Int) (hour : Nat) (today : String) (ts : Nat → Nat) (casOk : List Bool)
    (user : User) (sess : Session) (nums : List String)
    (hu : getUser s username = some user) (h100 : ¬ amount < 100)
    (hsess : sessionOfHour hour = some sess) (hexp : expand2D betType number = some nums)
    (hbal : user.balance < (nums.length : Int) * amount) :
    placeBet s username betType number amount hour today ts casOk =
      (BetResult.insufficientFunds, s, 0) ∧
    (placeBet s username betType number amount hour today ts casOk).2.1.users = s.users ∧
    (placeBet s username betType number amount hour today ts casOk).2.1.bets = s.bets := by
  have h := @placeBet_insufficient s username betType number amount hour today ts casOk
    user sess nums hu h100 hsess hexp hbal
  exact ⟨h, by rw [h], by rw [h]⟩

/-- Witness for C2: a head bet of stake 200 costs 2000, above the balance 1000. -/
theorem claim2_witness :
    placeBet sAlice "alice" "head" "7" 200 10 "2025-01-01" (fun _ => 5) [] =
      (BetResult.insufficientFunds, sAlice, 0) ∧
    (placeBet sAlice "alice" "head" "7" 200 10 "2025-01-01" (fun _ => 5) []).2.1.users =
      sAlice.users ∧
    (placeBet sAlice "alice" "head" "7" 200 10 "2025-01-01" (fun _ => 5) []).2.1.bets =
      sAlice.bets :=
  claim2_insufficient_funds sAlice "alice" "head" "7" 200 10 "2025-01-01" (fun _ => 5) []
    ⟨"alice", 1000, false, 0⟩ Session.Morning
    ["70", "71", "72", "73", "74", "75", "76", "77", "78", "79"]
    (by decide) (by decide) (by decide) (by decide) (by decide)

/-- C3: the sweep resolves every stored pending wager of the settled date and
session — its final status is win exactly when its number equals the
winning number, lose otherwise, other fields untouched — and for a winning
wager whose owner account exists, one sweep step writes the win status and
credits stake × multiplier to that owner in a single atomic commit. -/
theorem claim3_settlement (s : KVState) (today w : String) (sess : Session) (m : Int)
    (hnd : betIdsNodup s) :
    (∀ b ∈ s.bets, b.date = today → b.status = BetStatus.pending → b.session = sess →
      ∃ b' ∈ (process2DWinnings s today w sess m).1.bets,
        b'.id = b.id ∧ b'.username = b.username ∧ b'.number = b.number ∧
        b'.amount = b.amount ∧ b'.date = b.date ∧ b'.session = b.session ∧
        (b'.status = BetStatus.win ↔ b.number = w) ∧
        (b'.status = BetStatus.lose ↔ b.number ≠ w)) ∧
    (∀ (acc : KVState × Nat) (bet : TwoDBet) (user : User),
      bet.status = BetStatus.pending → bet.session = sess → bet.number = w →
      getUser acc.1 bet.username = some user →
      settleStep w sess m acc bet =
        (setUserBalance (updateBetStatus acc.1 bet.id BetStatus.win) bet.username
          (user.balance + bet.amount * m), acc.2 + 1)) := by
  constructor
  · intro b hb hdate hp hses
    obtain ⟨b', hb', hid, hun, hnum, ham, hdt, hsz, hts, hst⟩ :=
      @process2DWinnings_resolved s today w sess m hnd b hb hdate
        (by simp [sweepHits, hp, hses])
    refine ⟨b', hb', hid, hun, hnum, ham, hdt, hsz, ?_, ?_⟩
    · rw [hst]; unfold resolveStatus
      by_cases hw : b.number = w <;> simp [hw]
    · rw [hst]; unfold resolveStatus
      by_cases hw : b.number = w <;> simp [hw]
  · intro acc bet user hp hses hwin hu
    exact settleStep_win_atomic hp hses hwin hu

/-- Witness for C3 at the concrete store sPending. -/
theorem claim3_witness :
    (∀ b ∈ sPending.bets, b.date = "2025-01-01" → b.status = BetStatus.pending →
      b.session = Session.Morning →
      ∃ b' ∈ (process2DWinnings sPending "2025-01-01" "23" Session.Morning 80).1.bets,
        b'.id = b.id ∧ b'.username = b.username ∧ b'.number = b.number ∧
        b'.amount = b.amount ∧ b'.date = b.date ∧ b'.session = b.session ∧
        (b'.status = BetStatus.win ↔ b.number = "23") ∧
        (b'.status = BetStatus.lose ↔ b.number ≠ "23")) ∧
    (∀ (acc : KVState × Nat) (bet : TwoDBet) (user : User),
      bet.status = BetStatus.pending → bet.session = Session.Morning →
      bet.number = "23" → getUser acc.1 bet.username = some user →
      settleStep "23" Session.Morning 80 acc bet =
        (setUserBalance (updateBetStatus acc.1 bet.id BetStatus.win) bet.username
          (user.balance + bet.amount * 80), acc.2 + 1)) :=
  claim3_settlement sPending "2025-01-01" "23" Session.Morning 80 (by decide)

/-- C4: after the sweep, no wager of the settled (date, session) is still
pending, and re-invoking the sweep with the same arguments returns the very
same store and pays zero further wins. -/
theorem claim4_settlement_idempotent (s : KVState) (today w : String) (sess : Session)
    (m : Int) (hnd : betIdsNodup s) :
    (∀ b' ∈ (process2DWinnings s today w sess m).1.bets,
      b'.date = today → b'.session = sess → b'.status ≠ BetStatus.pending) ∧
    process2DWinnings (process2DWinnings s today w sess m).1 today w sess m =
      ((process2DWinnings s today w sess m).1, 0) := by
  constructor
  · intro b' hb' hd hsz hp
    exact process2DWinnings_no_pending hnd b' hb' ⟨hd, hsz, hp⟩
  · exact process2DWinnings_idem hnd

/-- Witness for C4 at the concrete store sPending. -/
theorem claim4_witness :
    (∀ b' ∈ (process2DWinnings sPending "2025-01-01" "23" Session.Morning 80).1.bets,
      b'.date = "2025-01-01" → b'.session = Session.Morning →
      b'.status ≠ BetStatus.pending) ∧
    process2DWinnings (process2DWinnings sPending "2025-01-01" "23" Session.Morning 80).1
        "2025-01-01" "23" Session.Morning 80 =
      ((process2DWinnings sPending "2025-01-01" "23" Session.Morning 80).1, 0) :=
  claim4_settlement_idempotent sPending "2025-01-01" "23" Session.Morning 80 (by decide)

/-- C5: for every valid (betType, rawNumber) pair the expansion yields exactly
the canonical duplicate-free set — direct: the single number; r: the number
and its digit reversal, collapsing to one member on a palindrome; double:
the fixed ten doubles regardless of the raw number; head digit d: d0..d9;
tail digit d: 0d..9d — an unknown bet type yields the validation error, and
a successful placement debits exactly stakePerNumber × size of the
expansion. -/
theorem claim5_expansion :
    (∀ n : String, isDigits n 2 = true → expand2D "direct" n = some [n]) ∧
    (∀ n : String, isDigits n 2 = true →
      expand2D "r" n = some (if reverseStr n = n then [n] else [n, reverseStr n]) ∧
      (∀ l, expand2D "r" n = some l →
        (l.length = 1 ↔ reverseStr n = n) ∧ l.Nodup)) ∧
    (∀ x : String, expand2D "double" x =
      some ["00", "11", "22", "33", "44", "55", "66", "77", "88", "99"]) ∧
    (["00", "11", "22", "33", "44", "55", "66", "77", "88", "99"] : List String).Nodup ∧
    (∀ d : String, isDigits d 1 = true →
      expand2D "head" d = some ((List.range 10).map (fun i => d ++ toString i)) ∧
      ((List.range 10).map (fun i => d ++ toString i)).Nodup) ∧
    (∀ d : String, isDigits d 1 = true →
      expand2D "tail" d = some ((List.range 10).map (fun i => toString i ++ d)) ∧
      ((List.range 10).map (fun i => toString i ++ d)).Nodup) ∧
    (∀ t n : String, t ≠ "double" → t ≠ "head" → t ≠ "tail" → t ≠ "r" → t ≠ "direct" →
      expand2D t n = none) ∧
    (∀ (s : KVState) (username betType number : String) (amount : Int) (hour : Nat)
      (today : String) (ts : Nat → Nat) (casOk : List Bool) (user : User) (sess : Session)
      (nums : List String),
      getUser s username = some user → ¬ amount < 100 → sessionOfHour hour = some sess →
      expand2D betType number = some nums →
      ¬ user.balance < (nums.length : Int) * amount → casFirstOk casOk = true →
      (placeBet s username betType number amount hour today ts casOk).1 =
        BetResult.ok (user.balance - (nums.length : Int) * amount)) := by
  refine ⟨fun n h => expand2D_direct h, ?_, expand2D_double, by decide,
    fun d h => ⟨expand2D_head h, head_expansion_nodup d⟩,
    fun d h => ⟨expand2D_tail h, tail_expansion_nodup d⟩,
    fun t n h1 h2 h3 h4 h5 => expand2D_unknown h1 h2 h3 h4 h5, ?_⟩
  · intro n h
    refine ⟨expand2D_r h, ?_⟩
    intro l hl
    rw [expand2D_r h] at hl
    cases hl
    constructor
    · by_cases hp : reverseStr n = n <;> simp [hp]
    · exact r_expansion_nodup n
  · intro s username betType number amount hour today ts casOk user sess nums
      hu h100 hsess hexp hbal hcas
    rw [placeBet_success hu h100 hsess hexp hbal hcas]

/-- Witness for C5 at concrete inputs of every bet type. -/
theorem claim5_witness :
    expand2D "direct" "23" = some ["23"] ∧
    expand2D "r" "21" = some (if reverseStr "21" = "21" then ["21"]
      else ["21", reverseStr "21"]) ∧
    expand2D "double" "00" =
      some ["00", "11", "22", "33", "44", "55", "66", "77", "88", "99"] ∧
    (expand2D "head" "7" = some ((List.range 10).map (fun i => "7" ++ toString i)) ∧
      ((List.range 10).map (fun i => "7" ++ toString i)).Nodup) ∧
    (expand2D "tail" "3" = some ((List.range 10).map (fun i => toString i ++ "3")) ∧
      ((List.range 10).map (fun i => toString i ++ "3")).Nodup) ∧
    expand2D "triple" "23" = none ∧
    (placeBet sAlice "alice" "head" "7" 100 10 "2025-01-01" (fun _ => 5) []).1 =
      BetResult.ok (1000 - (10 : Int) * 100) := by
  obtain ⟨h1, h2, h3, h4, h5, h6, h7, h8⟩ := claim5_expansion
  exact ⟨h1 "23" (by decide), (h2 "21" (by decide)).1, h3 "00", h5 "7" (by decide),
    h6 "3" (by decide),
    h7 "triple" "23" (by decide) (by decide) (by decide) (by decide) (by decide),
    h8 sAlice "alice" "head" "7" 100 10 "2025-01-01" (fun _ => 5) [] ⟨"alice", 1000, false, 0⟩
      Session.Morning ["70", "71", "72", "73", "74", "75", "76", "77", "78", "79"]
      (by decide) (by decide) (by decide) (by decide) (by decide) (by decide)⟩

/-- C6 counterexample: with a clock that advances between the two saves of a
Reverse placement (reading k at the k-th save), the placement succeeds and
persists records stamped 0 and 1 — the source evaluates Date.now() anew for
each record of the save loop (with an awaited kv.set in between), so the
records of one placement need not share a single placement timestamp,
refuting that conjunct of the claim as stated. -/
theorem claim6_counterexample :
    (placeBet sAlice "alice" "r" "21" 100 10 "2025-01-01" (fun k => k) []).1 =
      BetResult.ok 800 ∧
    ((placeBet sAlice "alice" "r" "21" 100 10 "2025-01-01" (fun k => k) []).2.1.bets.map
      (fun b => b.timestamp)) = [0, 1] ∧
    (0 : Nat) ≠ 1 ∧
    ((placeBet sAlice "alice" "r" "21" 100 10 "2025-01-01" (fun k => k) []).2.1.bets.map
      (fun b => b.date)) = ["2025-01-01", "2025-01-01"] := by
  decide

/-- C6 as amended: on a successful placement, the handler state carries the
original wagers plus exactly one new pending record per expanded number —
all sharing the owner, stake, draw date and session, with fresh
pairwise-distinct ids, each record stamped with the clock reading of its
own save (the source calls Date.now() once per record) — the debit is
already applied in the same resulting state, any outcome other than ok
leaves the store completely unchanged, so wager records exist only once
the debit has succeeded; and exactly when the clock does not advance
during the save loop, all records of the placement share one placement
timestamp. -/
theorem claim6_persistence (s : KVState) (username betType number : String)
    (amount : Int) (hour : Nat) (today : String) (ts : Nat → Nat) (casOk : List Bool)
    (user : User) (sess : Session) (nums : List String)
    (hu : getUser s username = some user) (h100 : ¬ amount < 100)
    (hsess : sessionOfHour hour = some sess) (hexp : expand2D betType number = some nums)
    (hbal : ¬ user.balance < (nums.length : Int) * amount)
    (hcas : casFirstOk casOk = true)
    (hnd : betIdsNodup s) (hfresh : betIdsFresh s) :
    (placeBet s username betType number amount hour today ts casOk).2.1.bets =
      s.bets ++ mkBets username amount today sess ts nums s.nextId ∧
    (mkBets username amount today sess ts nums s.nextId).map (fun b => b.number) = nums ∧
    (∀ b ∈ mkBets username amount today sess ts nums s.nextId,
      b.status = BetStatus.pending ∧ b.username = username ∧ b.amount = amount ∧
      b.date = today ∧ b.session = sess ∧ b.timestamp = ts b.id) ∧
    betIdsNodup (placeBet s username betType number amount hour today ts casOk).2.1 ∧
    betIdsFresh (placeBet s username betType number amount hour today ts casOk).2.1 ∧
    getUser (placeBet s username betType number amount hour today ts casOk).2.1 username =
      some { user with balance := user.balance - (nums.length : Int) * amount } ∧
    (∀ (s' : KVState) (u' bt' n' : String) (a' : Int) (h' : Nat) (d' : String)
      (t' : Nat → Nat) (c' : List Bool),
      (∀ nb, (placeBet s' u' bt' n' a' h' d' t' c').1 ≠ BetResult.ok nb) →
      (placeBet s' u' bt' n' a' h' d' t' c').2.1 = s') ∧
    ((∀ i j, ts i = ts j) →
      ∀ b1 ∈ mkBets username amount today sess ts nums s.nextId,
        ∀ b2 ∈ mkBets username amount today sess ts nums s.nextId,
          b1.timestamp = b2.timestamp) := by
  have heq := @placeBet_success s username betType number amount hour today ts casOk
    user sess nums hu h100 hsess hexp hbal hcas
  refine ⟨by rw [heq], mkBets_map_number username amount today sess ts nums s.nextId,
    ?_, ?_, ?_, ?_, ?_, ?_⟩
  · intro b hb
    obtain ⟨h1, h2, h3, h4, h5, h6, _, _⟩ :=
      mkBets_fields username amount today sess ts nums s.nextId b hb
    exact ⟨h1, h2, h3, h4, h5, h6⟩
  · rw [heq]
    show ((s.bets ++ mkBets username amount today sess ts nums s.nextId).map
      (fun b => b.id)).Nodup
    rw [List.map_append]
    refine List.Nodup.append hnd ?_ ?_
    · rw [mkBets_map_id]
      simp [List.nodup_range']
    · intro i hi hi'
      rw [mkBets_map_id] at hi'
      obtain ⟨b, hb, hbi⟩ := List.mem_map.mp hi
      have hlt : i < s.nextId := hbi ▸ hfresh b hb
      have hge : s.nextId ≤ i := (List.mem_range'_1.mp hi').1
      omega
  · rw [heq]
    intro b hb
    show b.id < s.nextId + nums.length
    have hb' : b ∈ s.bets ++ mkBets username amount today sess ts nums s.nextId := hb
    rcases List.mem_append.mp hb' with hb2 | hb2
    · have := hfresh b hb2
      omega
    · obtain ⟨_, _, _, _, _, _, _, h8⟩ :=
        mkBets_fields username amount today sess ts nums s.nextId b hb2
      exact h8
  · rw [heq]
    exact getUser_setUserBalance_same _ hu
  · intro s' u' bt' n' a' h' d' t' c' hok
    exact placeBet_state_of_not_ok hok
  · intro hconst b1 hb1 b2 hb2
    obtain ⟨_, _, _, _, _, h6, _, _⟩ :=
      mkBets_fields username amount today sess ts nums s.nextId b1 hb1
    obtain ⟨_, _, _, _, _, h6b, _, _⟩ :=
      mkBets_fields username amount today sess ts nums s.nextId b2 hb2
    rw [h6, h6b]
    exact hconst b1.id b2.id

/-- Witness for the amended C6 at the concrete store sAlice with a head bet
under a non-advancing clock. -/
theorem claim6_witness :
    (placeBet sAlice "alice" "head" "7" 100 10 "2025-01-01" (fun _ => 5) []).2.1.bets =
      sAlice.bets ++ mkBets "alice" 100 "2025-01-01" Session.Morning (fun _ => 5)
        ["70", "71", "72", "73", "74", "75", "76", "77", "78", "79"] sAlice.nextId ∧
    (mkBets "alice" 100 "2025-01-01" Session.Morning (fun _ => 5)
        ["70", "71", "72", "73", "74", "75", "76", "77", "78", "79"] sAlice.nextId).map
      (fun b => b.number) =
      ["70", "71", "72", "73", "74", "75", "76", "77", "78", "79"] ∧
    (∀ b ∈ mkBets "alice" 100 "2025-01-01" Session.Morning (fun _ => 5)
        ["70", "71", "72", "73", "74", "75", "76", "77", "78", "79"] sAlice.nextId,
      b.status = BetStatus.pending ∧ b.username = "alice" ∧ b.amount = 100 ∧
      b.date = "2025-01-01" ∧ b.session = Session.Morning ∧ b.timestamp = 5) ∧
    betIdsNodup
      (placeBet sAlice "alice" "head" "7" 100 10 "2025-01-01" (fun _ => 5) []).2.1 ∧
    betIdsFresh
      (placeBet sAlice "alice" "head" "7" 100 10 "2025-01-01" (fun _ => 5) []).2.1 ∧
    getUser (placeBet sAlice "alice" "head" "7" 100 10 "2025-01-01" (fun _ => 5) []).2.1
        "alice" =
      some ⟨"alice", 1000 - (10 : Int) * 100, false, 0⟩ ∧
    (∀ (s' : KVState) (u' bt' n' : String) (a' : Int) (h' : Nat) (d' : String)
      (t' : Nat → Nat) (c' : List Bool),
      (∀ nb, (placeBet s' u' bt' n' a' h' d' t' c').1 ≠ BetResult.ok nb) →
      (placeBet s' u' bt' n' a' h' d' t' c').2.1 = s') ∧
    (∀ b1 ∈ mkBets "alice" 100 "2025-01-01" Session.Morning (fun _ => 5)
        ["70", "71", "72", "73", "74", "75", "76", "77", "78", "79"] sAlice.nextId,
      ∀ b2 ∈ mkBets "alice" 100 "2025-01-01" Session.Morning (fun _ => 5)
        ["70", "71", "72", "73", "74", "75", "76", "77", "78", "79"] sAlice.nextId,
      b1.timestamp = b2.timestamp) := by
  obtain ⟨hA, hB, hC, hD, hE, hF, hG, hH⟩ :=
    claim6_persistence sAlice "alice" "head" "7" 100 10 "2025-01-01" (fun _ => 5) []
      ⟨"alice", 1000, false, 0⟩ Session.Morning
      ["70", "71", "72", "73", "74", "75", "76", "77", "78", "79"]
      (by decide) (by decide) (by decide) (by decide) (by decide) (by decide)
      (by decide) (by decide)
  exact ⟨hA, hB, hC, hD, hE, hF, hG, hH (fun i j => rfl)⟩

/-- C7 counterexample: with conditional-write outcomes [false, true] — the
first commit loses its race while an immediate re-read-and-retry would
succeed — the bet handler surfaces the conflict after exactly one attempted
conditional write; no internal retry consumes the second outcome, refuting
the claim that the operation retries internally before surfacing
ConcurrencyConflict. -/
theorem claim7_counterexample :
    (placeBet sAlice "alice" "direct" "23" 100 10 "2025-01-01" (fun _ => 5) [false, true]).1 =
      BetResult.conflict ∧
    (placeBet sAlice "alice" "direct" "23" 100 10 "2025-01-01" (fun _ => 5) [false, true]).2.2 = 1 ∧
    (placeBet sAlice "alice" "direct" "23" 100 10 "2025-01-01" (fun _ => 5) [true]).1 =
      BetResult.ok 900 ∧
    (adminTopUp sAlice "alice" 500 [false, true]).1 = TopUpResult.conflict ∧
    (adminTopUp sAlice "alice" 500 [false, true]).2.2 = 1 := by
  decide

/-- C7 as amended: when the single conditional write of a placement or a
top-up fails, the handler surfaces the conflict immediately — exactly one
conditional write is attempted, no internal retry happens, and the store
is unchanged; retrying is left to the caller. -/
theorem claim7_no_retry (s : KVState) (username betType number : String) (amount : Int)
    (hour : Nat) (today : String) (ts : Nat → Nat) (casOk : List Bool) (user : User)
    (sess : Session) (nums : List String) (target : String) (tamount : Int)
    (tuser : User)
    (hu : getUser s username = some user) (h100 : ¬ amount < 100)
    (hsess : sessionOfHour hour = some sess) (hexp : expand2D betType number = some nums)
    (hbal : ¬ user.balance < (nums.length : Int) * amount)
    (hcas : casFirstOk casOk = false)
    (htu : getUser s target = some tuser) (htam : ¬ tamount ≤ 0) :
    placeBet s username betType number amount hour today ts casOk =
      (BetResult.conflict, s, 1) ∧
    adminTopUp s target tamount casOk = (TopUpResult.conflict, s, 1) := by
  constructor
  · simp [placeBet, hu, h100, hsess, hexp, hbal, hcas]
  · simp [adminTopUp, htu, htam, hcas]

/-- Witness for the amended C7 at the concrete store sAlice. -/
theorem claim7_witness :
    placeBet sAlice "alice" "direct" "23" 100 10 "2025-01-01" (fun _ => 5) [false] =
      (BetResult.conflict, sAlice, 1) ∧
    adminTopUp sAlice "alice" 500 [false] = (TopUpResult.conflict, sAlice, 1) :=
  claim7_no_retry sAlice "alice" "direct" "23" 100 10 "2025-01-01" (fun _ => 5) [false]
    ⟨"alice", 1000, false, 0⟩ Session.Morning ["23"] "alice" 500
    ⟨"alice", 1000, false, 0⟩
    (by decide) (by decide) (by decide) (by decide) (by decide) (by decide)
    (by decide) (by decide)

/-- C8 counterexample: two concurrent debits of 100 against balance 200,
interleaved so that the second placement's fresh get (whose versionstamp
the conditional write checks) happens after the first placement commits,
both report success, yet the final balance is 100 instead of
200 - (100 + 100) = 0 — one debit is lost because the commit recomputes
from the stale balance read at session load, refuting the claim that all
such placements succeed with no lost update. -/
theorem claim8_counterexample :
    ((runSched ⟨200, 0⟩ [mkProc 100, mkProc 100] [0, 1, 1, 1, 0, 0]).2.map
      (fun p => p.outcome)) =
      [some DebitOutcome.success, some DebitOutcome.success] ∧
    (100 : Int) + 100 ≤ 200 ∧
    (runSched ⟨200, 0⟩ [mkProc 100, mkProc 100] [0, 1, 1, 1, 0, 0]).1.balance = 100 ∧
    (100 : Int) ≠ 200 - (100 + 100) := by
  decide

/-- C8 as amended: when the placements' debits execute serially (each one's
read, version capture and commit finish before the next begins), every
debit whose costs sum to at most the starting balance succeeds, and the
final balance is the starting balance minus the sum of all costs. -/
theorem claim8_serial_no_lost_updates (g : LedgerState) (costs : List Int)
    (hpos : ∀ c ∈ costs, 0 ≤ c) (hsum : costs.sum ≤ g.balance) :
    (runSerial g costs).2 = costs.map (fun _ => some DebitOutcome.success) ∧
    (runSerial g costs).1.balance = g.balance - costs.sum := by
  rw [runSerial_success hpos g hsum]
  exact ⟨rfl, rfl⟩

/-- Witness for the amended C8: three serial debits against balance 600. -/
theorem claim8_witness :
    (runSerial ⟨600, 0⟩ [100, 200, 300]).2 =
      ([100, 200, 300] : List Int).map (fun _ => some DebitOutcome.success) ∧
    (runSerial ⟨600, 0⟩ [100, 200, 300]).1.balance =
      600 - ([100, 200, 300] : List Int).sum :=
  claim8_serial_no_lost_updates ⟨600, 0⟩ [100, 200, 300] (by decide) (by decide)

/-- C9 counterexample: with the Morning and the Evening result of one date
stored, the listing returns the Morning result first although the Evening
result was published later — the reverse key enumeration orders the session
component by its name ("Morning" after "Evening" in code-point order), not
by publication recency — refuting the claimed most-recent-first order; the
at-most-limit part is untouched. -/
theorem claim9_counterexample :
    getRecentResults sResults 10 =
      [⟨"2025-01-01", "12:01 PM", "11", Session.Morning⟩,
       ⟨"2025-01-01", "4:30 PM", "22", Session.Evening⟩,
       ⟨"2024-12-31", "12:01 PM", "33", Session.Morning⟩] ∧
    ¬ mostRecentFirst (getRecentResults sResults 10) := by
  decide

/-- C9 as amended: getRecentResults returns at most limit results, ordered by
descending (date, session-name) key — most recent date first, and within
one date Morning before Evening because "Morning" follows "Evening" in
code-point order. -/
theorem claim9_reverse_key_order (s : KVState) (limit : Nat) :
    (getRecentResults s limit).length ≤ limit ∧
    List.Sorted recentKeyGe (getRecentResults s limit) :=
  ⟨getRecentResults_length s limit, getRecentResults_sorted s limit⟩

/-- C10: a pending wager that matches the winning number but whose owner
account is absent from the store is still transitioned to win and counted
in the returned paid count, while every account is left untouched — shown
for the sweep over a store holding exactly that wager, and for the
individual sweep step. -/
theorem claim10_missing_owner (s : KVState) (today w : String) (sess : Session)
    (m : Int) (bet : TwoDBet)
    (hp : bet.status = BetStatus.pending) (hsess : bet.session = sess)
    (hwin : bet.number = w) (hdate : bet.date = today)
    (hu : getUser s bet.username = none) (hbets : s.bets = [bet]) :
    process2DWinnings s today w sess m =
      ({ s with bets := [{ bet with status := BetStatus.win }] }, 1) ∧
    (process2DWinnings s today w sess m).1.users = s.users ∧
    (∀ (acc : KVState × Nat) (b : TwoDBet), b.status = BetStatus.pending →
      b.session = sess → b.number = w → getUser acc.1 b.username = none →
      settleStep w sess m acc b = (updateBetStatus acc.1 b.id BetStatus.win, acc.2 + 1) ∧
      (updateBetStatus acc.1 b.id BetStatus.win).users = acc.1.users) := by
  have hstep : process2DWinnings s today w sess m =
      ({ s with bets := [{ bet with status := BetStatus.win }] }, 1) := by
    unfold process2DWinnings
    rw [hbets]
    have hf : ([bet].filter (fun b => b.date == today)) = [bet] := by
      simp [hdate]
    rw [hf]
    simp only [List.foldl_cons, List.foldl_nil]
    rw [settleStep_win_missing_user hp hsess hwin hu]
    simp [updateBetStatus, hbets]
  refine ⟨hstep, by rw [hstep], ?_⟩
  intro acc b hp' hsess' hwin' hu'
  exact ⟨settleStep_win_missing_user hp' hsess' hwin' hu', rfl⟩

/-- Witness for C10 at the concrete store sOrphan. -/
theorem claim10_witness :
    process2DWinnings sOrphan "2025-01-01" "23" Session.Morning 80 =
      ({ sOrphan with
          bets := [⟨0, "bob", "23", 100, "2025-01-01", Session.Morning,
            BetStatus.win, 5⟩] }, 1) ∧
    (process2DWinnings sOrphan "2025-01-01" "23" Session.Morning 80).1.users =
      sOrphan.users ∧
    (∀ (acc : KVState × Nat) (b : TwoDBet), b.status = BetStatus.pending →
      b.session = Session.Morning → b.number = "23" → getUser acc.1 b.username = none →
      settleStep "23" Session.Morning 80 acc b =
        (updateBetStatus acc.1 b.id BetStatus.win, acc.2 + 1) ∧
      (updateBetStatus acc.1 b.id BetStatus.win).users = acc.1.users) :=
  claim10_missing_owner sOrphan "2025-01-01" "23" Session.Morning 80
    ⟨0, "bob", "23", 100, "2025-01-01", Session.Morning, BetStatus.pending, 5⟩
    (by decide) (by decide) (by decide) (by decide) (by decide) (by decide)

end Game2D
